import Mathlib

/-!
Shallow embedding of the reliability layer of the nyuki runtime:
the bounded event-durability buffer and health-gated persistence
(`src/nyuki/bus/persistence/persistence.py`), the tenant catalog helper
(`src/nyuki/utils/mongo.py`), and the workflow-execution registry with its
report merge and broadcast protocol (`src/nyuki/workflow/workflow.py`).

Python dicts are modelled as insertion-ordered association lists, Python
exceptions as `Except`/`Option` results, `datetime` values as `Nat`, and
the asyncio event loop's effects (scheduled callbacks, the exception
handler used as fault sink) as explicit fields of a state record.
-/

/-! ### Association-list model of Python dicts (insertion ordered) -/

/-- Python `d[k]` / `d.get(k)`: value of the first (unique) entry with key `k`. -/
def dlookup {κ α : Type} [DecidableEq κ] (k : κ) : List (κ × α) → Option α
  | [] => none
  | (k', v) :: rest => if k' = k then some v else dlookup k rest

/-- Python `d[k] = v`: overwrite in place (keeping the entry's position) if the
key is present, otherwise append at the end, exactly as insertion-ordered
Python dicts behave. -/
def dset {κ α : Type} [DecidableEq κ] (k : κ) (v : α) : List (κ × α) → List (κ × α)
  | [] => [(k, v)]
  | (k', v') :: rest => if k' = k then (k', v) :: rest else (k', v') :: dset k v rest

/-- Python `del d[k]` on a present key: drop the (unique) entry with key `k`. -/
def ddel {κ α : Type} [DecidableEq κ] (k : κ) : List (κ × α) → List (κ × α)
  | [] => []
  | (k', v) :: rest => if k' = k then rest else (k', v) :: ddel k rest

/-- Python `{**a, **b}` (also `a.update(b)`): fold the entries of `b` into `a`. -/
def dmerge {κ α : Type} [DecidableEq κ] (a b : List (κ × α)) : List (κ × α) :=
  b.foldl (fun d kv => dset kv.1 kv.2 d) a

/-- A Python dict with string keys and string values. -/
abbrev PDict := List (String × String)

/-! ### FIFOSizedQueue (src/nyuki/bus/persistence/persistence.py, lines 17-38) -/

/-- `FIFOSizedQueue.__init__`: `self._list = list(); self._size = size`. -/
structure FIFOSizedQueue (α : Type) where
  list : List α
  size : Nat
deriving DecidableEq

def FIFOSizedQueue.init (α : Type) (size : Nat) : FIFOSizedQueue α := ⟨[], size⟩

/-- The `while len(self._list) > self._size: self._list.pop(0)` loop of `put`. -/
def shrinkList {α : Type} (sz : Nat) : List α → List α
  | [] => []
  | x :: xs => if xs.length + 1 > sz then shrinkList sz xs else x :: xs

/-- `FIFOSizedQueue.put`: evict oldest entries while the length exceeds the
bound, then append the new item at the tail. -/
def FIFOSizedQueue.put {α : Type} (q : FIFOSizedQueue α) (item : α) : FIFOSizedQueue α :=
  { q with list := shrinkList q.size q.list ++ [item] }

/-- A sequence of `put` calls, oldest first. -/
def FIFOSizedQueue.putAll {α : Type} (q : FIFOSizedQueue α) : List α → FIFOSizedQueue α
  | [] => q
  | e :: es => (q.put e).putAll es

/-- The attributes defined on the `FIFOSizedQueue` class in the source:
`list` (property), `put`, `pop`, `empty`.  There is no `remove` method, so a
Python attribute lookup of `remove` on the queue raises `AttributeError`. -/
def FIFOSizedQueue.methodNames : List String := ["list", "put", "pop", "empty"]

/-! ### EventStatus and BusEvent -/

/-- Modelled from the spec: the `EventStatus` enum lives in
`src/nyuki/bus/persistence/events.py`, which is not part of the provided
sources; the spec describes `status` as "one of a small closed set
(e.g. pending, sent, failed)".  Enum member names and values are modelled as
identical strings, so that Python's name lookup `EventStatus[s]` and value
comparison `s == member.value` agree on stored status strings. -/
inductive EventStatus
  | pending
  | sent
  | failed
deriving DecidableEq

/-- The `value` attribute of an enum member. -/
def EventStatus.value : EventStatus → String
  | .pending => "pending"
  | .sent => "sent"
  | .failed => "failed"

/-- Python `EventStatus[s]`: lookup by member name, `KeyError` (`none`) if `s`
is not a member name. -/
def EventStatus.fromName (s : String) : Option EventStatus :=
  if s = "pending" then some .pending
  else if s = "sent" then some .sent
  else if s = "failed" then some .failed
  else none

/-- A bus event dict as documented in `BusPersistence.store`:
`{id, status, topic, message}` plus the `created_at` key stamped by `store`. -/
structure BusEvent where
  id : String
  status : String
  topic : String
  message : String
  created_at : Nat
deriving DecidableEq

/-! ### BusPersistence (src/nyuki/bus/persistence/persistence.py, lines 41-196) -/

/-- `BusPersistence.MEMORY_TTL` ("One day"). -/
def BusPersistence.MEMORY_TTL : Nat := 86400

/-- `BusPersistence.QUEUE_SIZE`. -/
def BusPersistence.QUEUE_SIZE : Nat := 1000

/-- Outcome of a call into the durable backend: it either succeeds or raises. -/
inductive BackendReply
  | ok
  | failed
deriving DecidableEq

/-- The mutable state touched by `BusPersistence`: the in-memory queue
`self._last_events`, the removals scheduled through `loop.call_later`
(delay, event), and the number of reports made to the process-wide fault sink
`loop.call_exception_handler`. -/
structure PState where
  last_events : FIFOSizedQueue BusEvent
  scheduled : List (Nat × BusEvent)
  faultReports : Nat
deriving DecidableEq

/-- `BusPersistence.store(event)`.  `healthy` is the value of `await
self.ping()` (truthiness of the backend probe); `breply` is the outcome of
`backend.store` when it is attempted.  `Except.error ()` models a
`PersistenceError` raised to the caller. -/
def BusPersistence.store (healthy : Bool) (breply : BackendReply) (now : Nat)
    (event : BusEvent) (st : PState) : PState × Except Unit Unit :=
  let event := { event with created_at := now }
  if healthy then
    match breply with
    | .ok => (st, .ok ())
    | .failed => (st, .error ())
  else
    ({ st with
        last_events := st.last_events.put event
        scheduled := st.scheduled ++ [(BusPersistence.MEMORY_TTL, event)] },
     .ok ())

/-- Python `list.remove(x)`: drop the first element equal to `x`
(`ValueError`, here `none`, if absent). -/
def removeFirst (x : BusEvent) : List BusEvent → Option (List BusEvent)
  | [] => none
  | e :: es =>
    if e = x then some es
    else (removeFirst x es).map (fun r => e :: r)

/-- The `del_event` callback scheduled by `store` for TTL expiry.  It executes
`self._last_events.remove(event)`: an attribute lookup of `remove` on the
`FIFOSizedQueue` instance, which only succeeds if the class defines it.
The error result models the `AttributeError` escaping into the event loop. -/
def fire_del_event (st : PState) (event : BusEvent) : Except String PState :=
  if "remove" ∈ FIFOSizedQueue.methodNames then
    match removeFirst event st.last_events.list with
    | some l => .ok { st with last_events := { st.last_events with list := l } }
    | none => .error "ValueError"
  else
    .error "AttributeError"

/-- The in-memory branch of `BusPersistence.update`: scan the buffer and
overwrite the status (with the enum member's `value`) of the first event whose
id matches, leaving everything else untouched. -/
def update_memory (uid : String) (status : EventStatus) : List BusEvent → List BusEvent
  | [] => []
  | e :: es =>
    if e.id = uid then { e with status := status.value } :: es
    else e :: update_memory uid status es

/-- `BusPersistence.update(uid, status)`. -/
def BusPersistence.update (healthy : Bool) (breply : BackendReply) (uid : String)
    (status : EventStatus) (st : PState) : PState × Except Unit Unit :=
  if healthy then
    match breply with
    | .ok => (st, .ok ())
    | .failed => (st, .error ())
  else
    ({ st with
        last_events := { st.last_events with
          list := update_memory uid status st.last_events.list } },
     .ok ())

/-- The `status` argument of `retrieve`: `None`, a single enum member, or a
list of members.  Python truthiness makes `None` and the empty list falsy. -/
inductive StatusFilter
  | noneF
  | single (s : EventStatus)
  | many (l : List EventStatus)
deriving DecidableEq

/-- The `check_params` closure of `BusPersistence.retrieve`, evaluated on one
buffered event.  `none` models the `KeyError` raised by `EventStatus[...]`
when the stored status string is not a member name. -/
def check_params (since : Option Nat) (status : StatusFilter) (item : BusEvent) :
    Option Bool :=
  let since_check : Bool :=
    match since with
    | none => true
    | some dt => decide (item.created_at ≥ dt)
  let status_check : Option Bool :=
    match status with
    | .noneF => some true
    | .many [] => some true
    | .many l => (EventStatus.fromName item.status).map (fun es => decide (es ∈ l))
    | .single st => some (decide (item.status = st.value))
  status_check.map (fun sc => since_check && sc)

/-- `filter(check_params, self._last_events.list)`, materialized in buffer
order; `none` if any evaluation of the predicate raises. -/
def retrieve_memory (since : Option Nat) (status : StatusFilter) :
    List BusEvent → Option (List BusEvent)
  | [] => some []
  | e :: es => do
    let b ← check_params since status e
    let rest ← retrieve_memory since status es
    pure (if b then e :: rest else rest)

/-- The filter predicate exactly as claim C7 words it: `created_at >= since`
when `since` is given, and status equality (single value) or set-membership
(list of values) when `status` is given — including when the given list is
empty, where set-membership never holds. -/
def claimMatchesStrict (since : Option Nat) (status : StatusFilter) (e : BusEvent) : Bool :=
  (match since with
   | none => true
   | some dt => decide (e.created_at ≥ dt)) &&
  (match status with
   | .noneF => true
   | .single st => decide (e.status = st.value)
   | .many l => decide (e.status ∈ l.map EventStatus.value))

/-- The filter predicate of the amended claim C7: as `claimMatchesStrict`,
except that an empty status list is treated as no status filter at all. -/
def claimMatches (since : Option Nat) (status : StatusFilter) (e : BusEvent) : Bool :=
  (match since with
   | none => true
   | some dt => decide (e.created_at ≥ dt)) &&
  (match status with
   | .noneF => true
   | .single st => decide (e.status = st.value)
   | .many [] => true
   | .many l => decide (e.status ∈ l.map EventStatus.value))

/-- `BusPersistence.retrieve(since, status)`: healthy delegates to the
backend (its answer abstracted as `backendResult`), otherwise filter the
in-memory buffer. -/
def BusPersistence.retrieve (healthy : Bool) (backendResult : List BusEvent)
    (since : Option Nat) (status : StatusFilter) (st : PState) :
    Option (List BusEvent) :=
  if healthy then some backendResult
  else retrieve_memory since status st.last_events.list

/-- One drain pass over a buffer snapshot: events are popped one at a time and
written through; the first failing write aborts the loop (the failing event
has already been popped and is lost), leaving the rest buffered.
Returns (stored events, remaining buffer, whether a failure happened). -/
def drainList (storeOk : BusEvent → Bool) : List BusEvent → List BusEvent × List BusEvent × Bool
  | [] => ([], [], false)
  | e :: es =>
    if storeOk e then
      let r := drainList storeOk es
      (e :: r.1, r.2.1, r.2.2)
    else ([], es, true)

/-- `BusPersistence._empty_last_events`: if the backend ping succeeds, drain
the queue through `backend.store`; an exception mid-drain is reported to
`loop.call_exception_handler` (the fault sink) and does not propagate. -/
def BusPersistence.empty_last_events (ping : Bool) (storeOk : BusEvent → Bool)
    (st : PState) : PState × List BusEvent :=
  if ping then
    let r := drainList storeOk st.last_events.list
    ({ st with
        last_events := { st.last_events with list := r.2.1 }
        faultReports := st.faultReports + (if r.2.2 then 1 else 0) },
     r.1)
  else (st, [])

/-! ### MongoManager.list_databases (src/nyuki/utils/mongo.py, lines 45-53) -/

/-- `MongoManager.DATABASE_PREFIX`, as a character list. -/
def dbNameTag : List Char := ['o', 'r', 'g', '-']

/-- Python `str.replace(old, new)` with a non-empty pattern: replace every
non-overlapping occurrence, scanning left to right. -/
def replaceAll (pat rep : List Char) (s : List Char) : List Char :=
  if h : pat ≠ [] ∧ pat.isPrefixOf s then
    rep ++ replaceAll pat rep (s.drop pat.length)
  else
    match s with
    | [] => []
    | c :: cs => c :: replaceAll pat rep cs
termination_by s.length
decreasing_by
  · have hpre : pat <+: s := List.isPrefixOf_iff_prefix.mp h.2
    have hs : s ≠ [] := by
      intro he
      exact h.1 (List.prefix_nil.mp (he ▸ hpre))
    have hp : 0 < pat.length := List.length_pos.mpr h.1
    have hsl : 0 < s.length := List.length_pos.mpr hs
    simp only [List.length_drop]
    omega
  · simp [List.length_cons]

/-- `True` iff `pat` occurs as a contiguous sublist of `s` (for non-empty
`pat`, the condition under which Python's `replace` rewrites something). -/
def occursIn (pat : List Char) : List Char → Bool
  | [] => pat.isEmpty
  | c :: cs => pat.isPrefixOf (c :: cs) || occursIn pat cs

/-- `MongoManager.list_databases`, applied to the catalog of database names:
keep the names starting with the `org-` tag and map each through
`name.replace('org-', '')`. -/
def MongoManager.list_databases (names : List (List Char)) : List (List Char) :=
  (names.filter (fun n => dbNameTag.isPrefixOf n)).map (fun n => replaceAll dbNameTag [] n)

/-- The catalog enumeration as the claim words it: tenant identifiers obtained
by stripping the *leading* `org-` from each matching catalog name. -/
def listOrganizationsClaim (names : List (List Char)) : List (List Char) :=
  (names.filter (fun n => dbNameTag.isPrefixOf n)).map (fun n => n.drop dbNameTag.length)

/-! ### Workflow registry (src/nyuki/workflow/workflow.py) -/

/-- An organization identifier; `none` models Python `None` (no org given,
used as a dict key like any other). -/
abbrev Org := Option String

/-- The static template dict held by a `WorkflowInstance`: its `tasks` list
(each task a dict that should carry an `id` key) and its other keys. -/
structure TemplateDict where
  rest : PDict
  tasks : List PDict
deriving DecidableEq

/-- The dict returned by the tukio instance's own `report()` (engine-owned
data): an `exec` sub-dict and the dynamic per-task state dicts. -/
structure InstReport where
  exec : PDict
  tasks : List PDict
deriving DecidableEq

/-- The merged report document returned by `WorkflowInstance.report`:
`{**self._template, 'exec': ..., 'tasks': ...}`. -/
structure ReportDict where
  base : PDict
  exec : PDict
  tasks : List PDict
deriving DecidableEq

/-- `WorkflowInstance.ALLOWED_EXEC_KEYS`. -/
def ALLOWED_EXEC_KEYS : List String := ["requester", "track"]

/-- A `WorkflowInstance`: the template/instance pair kept by the registry.
`uid` is `instance.uid`; `instReport` stands for the data
`self._instance.report()` yields; `exec` is the allow-listed kwargs dict. -/
structure WorkflowInstance where
  template : TemplateDict
  uid : String
  organization : Org
  exec : PDict
  instReport : InstReport
deriving DecidableEq

/-- `WorkflowInstance.__init__`: keep only the allow-listed kwargs. -/
def WorkflowInstance.init (template : TemplateDict) (uid : String) (org : Org)
    (kwargs : PDict) (instReport : InstReport) : WorkflowInstance :=
  ⟨template, uid, org, kwargs.filter (fun kv => kv.1 ∈ ALLOWED_EXEC_KEYS), instReport⟩

/-- The dict comprehension `{task['id']: task for task in template['tasks']}`;
`none` models the `KeyError` on a task without an `id` key. -/
def buildTaskMap : List PDict → List (String × PDict) → Option (List (String × PDict))
  | [], d => some d
  | t :: ts, d => do
    let tid ← dlookup "id" t
    buildTaskMap ts (dset tid t d)

/-- The loop `for task in inst['tasks']: tasks[task['id']] = {**tasks[task['id']], **task}`;
`none` models a `KeyError` (task without `id`, or an id absent from the
template's task map). -/
def mergeInstTasks (d : List (String × PDict)) : List PDict → Option (List (String × PDict))
  | [] => some d
  | t :: ts => do
    let tid ← dlookup "id" t
    let st ← dlookup tid d
    mergeInstTasks (dset tid (dmerge st t) d) ts

/-- `WorkflowInstance.report`: merge the template's task list (keyed by task
id) with the dynamic per-task state of the instance report, update the exec
dict with the allow-listed kwargs, and return
`{**self._template, 'exec': …, 'tasks': list(tasks.values())}`. -/
def WorkflowInstance.report (w : WorkflowInstance) : Option ReportDict := do
  let tmap ← buildTaskMap w.template.tasks []
  let execMerged := dmerge w.instReport.exec w.exec
  let tmap' ← mergeInstTasks tmap w.instReport.tasks
  pure ⟨w.template.rest, execMerged, tmap'.map (fun p => p.2)⟩

/-- The dynamic state, if any, that `report` merges into a given template
task: the first instance task whose `id` equals the template task's `id`. -/
def dynFor (instTasks : List PDict) (t : PDict) : Option PDict :=
  instTasks.find? (fun dt => decide (dlookup "id" dt = dlookup "id" t))

/-- The effect of the merge loop on one entry of the id-keyed task map: merge
in the first dynamic task with that id, if any. -/
def applyDyn (dts : List PDict) (p : String × PDict) : String × PDict :=
  match dts.find? (fun dt => decide (dlookup "id" dt = some p.1)) with
  | some dt => (p.1, dmerge p.2 dt)
  | none => p

/-- `sanitize_workflow_exec`: replaces values of non-JSON-serializable types;
on the string-valued dicts of this model every value is a plain `str`, which
the source leaves unchanged. -/
def sanitize_workflow_exec (r : ReportDict) : ReportDict := r

/-- `WorkflowExecState` values used by the handler (from tukio, an external
collaborator): begin, progress, end, error.  `end` is spelled `endEv` because
`end` is a Lean keyword. -/
inductive WExecState
  | begin
  | progress
  | endEv
  | error
deriving DecidableEq

/-- `event.data['type'] in [WorkflowExecState.end.value, WorkflowExecState.error.value]`. -/
def WExecState.isTerminal : WExecState → Bool
  | .endEv => true
  | .error => true
  | _ => false

/-- An engine lifecycle event as consumed by `report_workflow`:
`source['workflow_exec_id']`, `data['type']`, `data.get('content')`. -/
structure EngineEvent where
  exec_id : String
  dtype : WExecState
  content : Option String
deriving DecidableEq

/-- The broadcast payload built by `report_workflow`.  The `requester` field
stands for the `workflow_exec_requester` entry added to the `source` dict. -/
structure Payload where
  ptype : WExecState
  pdata : String
  requester : Option String
  timestamp : Nat
  template : Option TemplateDict
deriving DecidableEq

/-- The mutable state of `WorkflowNyuki` the claims touch:
`self.running_workflows` (dict org -> dict exec_id -> WorkflowInstance) and
`self.ws_clients` (dict org -> list of clients, clients named by strings). -/
structure SysState where
  running : List (Org × List (String × WorkflowInstance))
  ws_clients : List (Org × List String)
deriving DecidableEq

/-- `WorkflowNyuki.new_workflow`: create the org's inner dict if absent and
store the instance under its uid. -/
def new_workflow (st : SysState) (w : WorkflowInstance) : SysState :=
  { st with
      running := dset w.organization
        (dset w.uid w ((dlookup w.organization st.running).getD [])) st.running }

/-- The lookup loop of `report_workflow`: scan the org dicts in insertion
order and take the first one containing the exec id; `none` means the loop
falls through with the local variable `wflow` never assigned. -/
def find_wflow (running : List (Org × List (String × WorkflowInstance)))
    (eid : String) : Option WorkflowInstance :=
  match running with
  | [] => none
  | (_, d) :: rest =>
    match dlookup eid d with
    | some w => some w
    | none => find_wflow rest eid

/-- The effects of one `report_workflow` call: the new registry/client state,
the fire-and-forget `storage.instances.insert` submissions (tenant, report),
and the `websocket.send` calls (recipient list, payload). -/
structure HandlerOut where
  state : SysState
  inserts : List (Org × ReportDict)
  sent : List (List String × Payload)
deriving DecidableEq

/-- `WorkflowNyuki.report_workflow(event)`.  `mongoOk` is the outcome of the
`db_context` admin ping; `now` stands for `datetime.utcnow()`.  An
`Except.error` is an exception escaping the handler: `UnboundLocalError` when
the exec id matches no record (the loop never assigns `wflow`, and
`wflow.exec` on the next line fails), `AutoReconnect`/`KeyError` for the
failure points of the terminal branch. -/
def report_workflow (mongoOk : Bool) (now : Nat) (st : SysState) (ev : EngineEvent) :
    Except String HandlerOut :=
  match find_wflow st.running ev.exec_id with
  | none => .error "UnboundLocalError"
  | some wflow =>
    let requester := dlookup "requester" wflow.exec
    let step : Except String (SysState × List (Org × ReportDict)) :=
      if ev.dtype.isTerminal then
        if !mongoOk then .error "AutoReconnect"
        else
          match wflow.report with
          | none => .error "KeyError"
          | some rep =>
            match dlookup wflow.organization st.running with
            | none => .error "KeyError"
            | some inner =>
              if (dlookup ev.exec_id inner).isSome then
                .ok ({ st with
                        running := dset wflow.organization
                          (ddel ev.exec_id inner) st.running },
                     [(wflow.organization, sanitize_workflow_exec rep)])
              else .error "KeyError"
      else .ok (st, [])
    match step with
    | .error e => .error e
    | .ok (st', ins) =>
      let payload : Payload :=
        { ptype := ev.dtype
          pdata := ev.content.getD ""
          requester := requester
          timestamp := now
          template := if ev.dtype = .begin then some wflow.template else none }
      .ok ⟨st', ins, [((dlookup wflow.organization st.ws_clients).getD [], payload)]⟩

/-- The list comprehension `[workflow.report() for workflow in …values()]`;
`none` if any report raises. -/
def reportAll : List (String × WorkflowInstance) → Option (List ReportDict)
  | [] => some []
  | p :: ps => do
    let r ← p.2.report
    let rs ← reportAll ps
    pure (r :: rs)

/-- `WorkflowNyuki.websocket_ready(client)`: register the client under its
organization header and return the catch-up snapshot — the reports of that
organization's live records only. -/
def websocket_ready (st : SysState) (client : String) (org : Org) :
    Option (SysState × List ReportDict) :=
  let cur := (dlookup org st.ws_clients).getD []
  let st' := { st with ws_clients := dset org (cur ++ [client]) st.ws_clients }
  (reportAll ((dlookup org st.running).getD [])).map (fun reps => (st', reps))

/-- Total number of live records across all organizations. -/
def countRecords (running : List (Org × List (String × WorkflowInstance))) : Nat :=
  (running.map (fun p => p.2.length)).sum

/-- A concrete registry record used as a test vector: one template task `t1`
with a title, dynamic state for `t1`, requester metadata, organization
`acme`. -/
def sampleInstance : WorkflowInstance :=
  ⟨⟨[("id", "wf1")], [[("id", "t1"), ("title", "A")], [("id", "t2"), ("title", "B")]]⟩,
   "x1", some "acme", [("requester", "bob")],
   ⟨[("status", "done")], [[("id", "t1"), ("status", "done")]]⟩⟩

/-- The merged report of `sampleInstance`: task `t1` carries static and
dynamic fields, task `t2` only its static fields. -/
def sampleReport : ReportDict :=
  ⟨[("id", "wf1")], [("status", "done"), ("requester", "bob")],
   [[("id", "t1"), ("title", "A"), ("status", "done")], [("id", "t2"), ("title", "B")]]⟩

/-- A two-tenant system state: `acme` runs `sampleInstance` and has client
`c1`; `beta` runs nothing and has client `c2`. -/
def sampleState : SysState :=
  ⟨[(some "acme", [("x1", sampleInstance)])],
   [(some "acme", ["c1"]), (some "beta", ["c2"])]⟩

/-! ## Lemmas about the FIFO queue -/

theorem shrinkList_eq_drop {α : Type} (sz : Nat) (l : List α) :
    shrinkList sz l = l.drop (l.length - sz) := by
  induction l with
  | nil => simp [shrinkList]
  | cons x xs ih =>
    simp only [shrinkList, List.length_cons]
    by_cases h : xs.length + 1 > sz
    · rw [if_pos h, ih]
      have he : xs.length + 1 - sz = (xs.length - sz) + 1 := by omega
      rw [he, List.drop_succ_cons]
    · rw [if_neg h]
      have he : xs.length + 1 - sz = 0 := by omega
      rw [he, List.drop_zero]

theorem FIFOSizedQueue.putAll_list {α : Type} (es l : List α) (sz : Nat)
    (h : l.length ≤ sz + 1) :
    (FIFOSizedQueue.putAll ⟨l, sz⟩ es).list
      = (l ++ es).drop (l.length + es.length - (sz + 1)) := by
  induction es generalizing l with
  | nil =>
    simp only [FIFOSizedQueue.putAll, List.append_nil, List.length_nil, Nat.add_zero]
    have h0 : l.length - (sz + 1) = 0 := by omega
    rw [h0, List.drop_zero]
  | cons e es ih =>
    have hput : FIFOSizedQueue.put ⟨l, sz⟩ e
        = ⟨l.drop (l.length - sz) ++ [e], sz⟩ := by
      simp [FIFOSizedQueue.put, shrinkList_eq_drop]
    have hlen : (l.drop (l.length - sz) ++ [e]).length ≤ sz + 1 := by
      simp only [List.length_append, List.length_drop, List.length_cons, List.length_nil]
      omega
    show (FIFOSizedQueue.putAll (FIFOSizedQueue.put ⟨l, sz⟩ e) es).list = _
    rw [hput, ih _ hlen]
    rw [List.append_assoc, List.singleton_append]
    simp only [List.length_append, List.length_drop, List.length_cons, List.length_nil]
    have key : ∀ (A d R : Nat), d ≤ l.length → R = d + A →
        List.drop A (List.drop d l ++ e :: es) = List.drop R (l ++ e :: es) := by
      intro A d R hA hEq
      rw [hEq, ← List.drop_drop, List.drop_append_of_le_length hA]
    exact key _ _ _ (Nat.sub_le _ _) (by omega)

theorem putAll_init {α : Type} (es : List α) (sz : Nat) :
    ((FIFOSizedQueue.init α sz).putAll es).list = es.drop (es.length - (sz + 1)) := by
  have h := FIFOSizedQueue.putAll_list es [] sz (by simp)
  simpa [FIFOSizedQueue.init] using h

/-- C1, counterexample: with the default capacity 1000, after 1001 `put`
calls the buffer holds 1001 entries — the claimed bound `length ≤ capacity`
is violated (the `while len > size` guard lets the list grow to size+1). -/
theorem c1_counterexample :
    ((FIFOSizedQueue.init Nat 1000).putAll (List.range 1001)).list.length = 1001 ∧
    1000 < ((FIFOSizedQueue.init Nat 1000).putAll (List.range 1001)).list.length := by
  have h := putAll_init (List.range 1001) 1000
  have hlen : ((FIFOSizedQueue.init Nat 1000).putAll (List.range 1001)).list.length = 1001 := by
    rw [h]
    simp
  exact ⟨hlen, by omega⟩

/-- C1, amended: for every sequence of `put` calls on a fresh queue with the
default capacity `QUEUE_SIZE = 1000`, the buffer length never exceeds
capacity + 1 (1001), and the retained entries are exactly the most recently
inserted `capacity + 1` items, oldest evicted first in strict FIFO order
(the buffer is always a suffix of the insertion sequence). -/
theorem c1_bounded_buffer_amended (events : List BusEvent) :
    ((FIFOSizedQueue.init BusEvent BusPersistence.QUEUE_SIZE).putAll events).list
      = events.drop (events.length - (BusPersistence.QUEUE_SIZE + 1)) ∧
    ((FIFOSizedQueue.init BusEvent BusPersistence.QUEUE_SIZE).putAll events).list.length
      ≤ BusPersistence.QUEUE_SIZE + 1 := by
  refine ⟨putAll_init events BusPersistence.QUEUE_SIZE, ?_⟩
  rw [putAll_init events BusPersistence.QUEUE_SIZE]
  simp only [List.length_drop]
  omega

/-- C2: with the backend unhealthy, `store` stamps `created_at`, appends the
event to the in-memory buffer, returns to the caller without raising, and
schedules a deferred removal after `MEMORY_TTL = 86400` seconds.  But the
scheduled callback `del_event` calls `self._last_events.remove(event)`, and
the `FIFOSizedQueue` class defines no `remove` attribute, so when the
callback runs it raises `AttributeError` and removes nothing. -/
theorem c2_ttl_removal_is_broken (now : Nat) (event : BusEvent) (st : PState) :
    (BusPersistence.store false .ok now event st).2 = .ok () ∧
    { event with created_at := now }
      ∈ (BusPersistence.store false .ok now event st).1.last_events.list ∧
    (BusPersistence.store false .ok now event st).1.scheduled
      = st.scheduled ++ [(86400, { event with created_at := now })] ∧
    ("remove" ∈ FIFOSizedQueue.methodNames → False) ∧
    (∀ st' : PState, ∀ e : BusEvent, fire_del_event st' e = .error "AttributeError") := by
  refine ⟨rfl, ?_, rfl, by decide, ?_⟩
  · simp [BusPersistence.store, FIFOSizedQueue.put]
  · intro st' e
    simp [fire_del_event, FIFOSizedQueue.methodNames]

/-- C9, counterexample: with the backend healthy and the backend rejecting
the write, `store` raises `PersistenceError` synchronously to the caller and
does not report to the process-wide fault sink (the state, including its
fault-report count of 0, is unchanged). -/
theorem c9_counterexample :
    BusPersistence.store true .failed 7 ⟨"e1", "pending", "muc", "m", 0⟩
        ⟨⟨[], 1000⟩, [], 0⟩
      = (⟨⟨[], 1000⟩, [], 0⟩, .error ()) ∧
    (BusPersistence.store true .failed 7 ⟨"e1", "pending", "muc", "m", 0⟩
        ⟨⟨[], 1000⟩, [], 0⟩).1.faultReports = 0 := by
  exact ⟨rfl, rfl⟩

/-- C9, amended: when the backend is healthy and a write-through `store` or
`update` is rejected by the backend, the failure is wrapped in
`PersistenceError` and raised synchronously to the caller, leaving the state
(including the fault-sink report count) unchanged; only the background drain
loop (`_empty_last_events`) reports failures to the process-wide fault sink,
returning normally. -/
theorem c9_writethrough_raises_amended (now : Nat) (event : BusEvent) (uid : String)
    (sv : EventStatus) (st : PState) (e : BusEvent) (l : List BusEvent) (sz : Nat)
    (sched : List (Nat × BusEvent)) (fr : Nat) :
    BusPersistence.store true .failed now event st = (st, .error ()) ∧
    BusPersistence.update true .failed uid sv st = (st, .error ()) ∧
    BusPersistence.empty_last_events true (fun _ => false) ⟨⟨e :: l, sz⟩, sched, fr⟩
      = (⟨⟨l, sz⟩, sched, fr + 1⟩, []) := by
  refine ⟨rfl, rfl, ?_⟩
  simp [BusPersistence.empty_last_events, drainList]

/-! ## Lemmas for the in-memory update and retrieve paths -/

theorem update_memory_no_match (uid : String) (sv : EventStatus) (l : List BusEvent)
    (h : ∀ e ∈ l, e.id ≠ uid) : update_memory uid sv l = l := by
  induction l with
  | nil => rfl
  | cons e es ih =>
    simp only [update_memory]
    rw [if_neg (h e (by simp)), ih (fun x hx => h x (List.mem_cons_of_mem _ hx))]

theorem update_memory_first_match (uid : String) (sv : EventStatus)
    (l1 : List BusEvent) (m : BusEvent) (l2 : List BusEvent)
    (h1 : ∀ e ∈ l1, e.id ≠ uid) (hm : m.id = uid) :
    update_memory uid sv (l1 ++ m :: l2) = l1 ++ { m with status := sv.value } :: l2 := by
  induction l1 with
  | nil =>
    simp only [List.nil_append, update_memory]
    rw [if_pos hm]
  | cons e es ih =>
    simp only [List.cons_append, update_memory, List.append_eq]
    rw [if_neg (h1 e (by simp)), ih (fun x hx => h1 x (List.mem_cons_of_mem _ hx))]

/-- C10: with the backend unhealthy, `update(uid, status)` on a uid matching
no buffered event returns normally and leaves the buffer unchanged; when the
buffer splits as `l1 ++ m :: l2` with `m` the first match, only `m`'s status
field is overwritten with the enum member's `value`, every other event and
every other field of `m` being untouched, and the call returns normally. -/
theorem c10_update_unhealthy_frame (breply : BackendReply) (uid : String)
    (sv : EventStatus) (st : PState) :
    ((∀ e ∈ st.last_events.list, e.id ≠ uid) →
      BusPersistence.update false breply uid sv st = (st, .ok ())) ∧
    (∀ l1 m l2, st.last_events.list = l1 ++ m :: l2 →
      (∀ e ∈ l1, e.id ≠ uid) → m.id = uid →
      BusPersistence.update false breply uid sv st
        = ({ st with last_events := { st.last_events with
              list := l1 ++ { m with status := sv.value } :: l2 } }, .ok ())) := by
  constructor
  · intro h
    simp only [BusPersistence.update, Bool.false_eq_true, if_false]
    rw [update_memory_no_match uid sv _ h]
  · intro l1 m l2 heq h1 hm
    simp only [BusPersistence.update, Bool.false_eq_true, if_false]
    rw [heq, update_memory_first_match uid sv l1 m l2 h1 hm]

/-- C10, witness: concrete buffers exercising both the first-match update and
the no-match no-op branches of the unhealthy `update` path. -/
theorem c10_witness :
    BusPersistence.update false .ok "b" .sent
        ⟨⟨[⟨"a", "pending", "t", "m", 0⟩, ⟨"b", "pending", "t", "m", 1⟩,
           ⟨"b", "failed", "t", "m", 2⟩], 1000⟩, [], 3⟩
      = (⟨⟨[⟨"a", "pending", "t", "m", 0⟩, ⟨"b", "sent", "t", "m", 1⟩,
           ⟨"b", "failed", "t", "m", 2⟩], 1000⟩, [], 3⟩, .ok ()) ∧
    BusPersistence.update false .ok "zz" .sent ⟨⟨[⟨"a", "pending", "t", "m", 0⟩], 5⟩, [], 0⟩
      = (⟨⟨[⟨"a", "pending", "t", "m", 0⟩], 5⟩, [], 0⟩, .ok ()) := by
  constructor
  · exact (c10_update_unhealthy_frame .ok "b" .sent _).2
      [⟨"a", "pending", "t", "m", 0⟩] ⟨"b", "pending", "t", "m", 1⟩
      [⟨"b", "failed", "t", "m", 2⟩] rfl (by decide) rfl
  · exact (c10_update_unhealthy_frame .ok "zz" .sent _).1 (by decide)

theorem fromName_value (s : String) (es : EventStatus)
    (h : EventStatus.fromName s = some es) : es.value = s := by
  unfold EventStatus.fromName at h
  by_cases h1 : s = "pending"
  · rw [if_pos h1] at h
    injection h with h
    subst h
    simp [EventStatus.value, h1]
  · rw [if_neg h1] at h
    by_cases h2 : s = "sent"
    · rw [if_pos h2] at h
      injection h with h
      subst h
      simp [EventStatus.value, h2]
    · rw [if_neg h2] at h
      by_cases h3 : s = "failed"
      · rw [if_pos h3] at h
        injection h with h
        subst h
        simp [EventStatus.value, h3]
      · rw [if_neg h3] at h
        cases h

theorem value_inj : ∀ a b : EventStatus, a.value = b.value → a = b := by
  intro a b
  cases a <;> cases b <;> decide

theorem mem_map_value (es : EventStatus) (l : List EventStatus) :
    es.value ∈ l.map EventStatus.value ↔ es ∈ l := by
  constructor
  · intro h
    obtain ⟨a, ha, hav⟩ := List.mem_map.mp h
    rwa [value_inj a es hav] at ha
  · intro h
    exact List.mem_map_of_mem _ h

theorem check_params_eq (since : Option Nat) (status : StatusFilter) (e : BusEvent)
    (h : (EventStatus.fromName e.status).isSome) :
    check_params since status e = some (claimMatches since status e) := by
  obtain ⟨es, hes⟩ := Option.isSome_iff_exists.mp h
  cases status with
  | noneF => simp [check_params, claimMatches]
  | single st => simp [check_params, claimMatches]
  | many l =>
    cases l with
    | nil => simp [check_params, claimMatches]
    | cons a as =>
      have hv : es.value = e.status := fromName_value _ _ hes
      have hiff : (e.status ∈ List.map EventStatus.value (a :: as)) ↔ (es ∈ a :: as) := by
        rw [← hv]
        exact mem_map_value es (a :: as)
      simp only [check_params, claimMatches, hes, Option.map_some']
      rw [decide_eq_decide.mpr hiff]

theorem retrieve_memory_eq (since : Option Nat) (status : StatusFilter) (l : List BusEvent)
    (h : ∀ e ∈ l, (EventStatus.fromName e.status).isSome) :
    retrieve_memory since status l = some (l.filter (claimMatches since status)) := by
  induction l with
  | nil => rfl
  | cons e es ih =>
    simp only [retrieve_memory]
    rw [check_params_eq since status e (h e (by simp)),
      ih (fun x hx => h x (List.mem_cons_of_mem _ hx))]
    simp [List.filter_cons]

/-- C7, counterexample: with the backend unhealthy, calling `retrieve` with
an *empty* status list (a given status filter) returns every buffered event,
although set-membership in the given (empty) list holds for none of them —
Python's truthiness check `if status:` skips the filter for an empty list. -/
theorem c7_counterexample :
    BusPersistence.retrieve false [] none (.many [])
        ⟨⟨[⟨"e1", "pending", "t", "m", 5⟩], 1000⟩, [], 0⟩
      = some [⟨"e1", "pending", "t", "m", 5⟩] ∧
    claimMatchesStrict none (.many []) ⟨"e1", "pending", "t", "m", 5⟩ = false := by
  exact ⟨rfl, rfl⟩

/-- C7, amended: with the backend unhealthy and every buffered status string
a valid `EventStatus` name, `retrieve(since, status)` returns exactly the
buffered events satisfying the conjunction of `created_at >= since` (when
`since` is given) and the status condition — equality for a single value,
set-membership for a *nonempty* list, an empty list behaving as if `status`
were not given — in buffer (insertion) order. -/
theorem c7_retrieve_filter_amended (backendResult : List BusEvent) (since : Option Nat)
    (status : StatusFilter) (st : PState)
    (hvalid : ∀ e ∈ st.last_events.list, (EventStatus.fromName e.status).isSome) :
    BusPersistence.retrieve false backendResult since status st
      = some (st.last_events.list.filter (claimMatches since status)) := by
  simp only [BusPersistence.retrieve, Bool.false_eq_true, if_false]
  exact retrieve_memory_eq since status _ hvalid

/-- C7, witness: a three-event buffer filtered by `since = 3` and the single
status `pending` keeps exactly the first event. -/
theorem c7_witness :
    BusPersistence.retrieve false [] (some 3) (.single .pending)
        ⟨⟨[⟨"e1", "pending", "t", "m", 5⟩, ⟨"e2", "sent", "t", "m", 7⟩,
           ⟨"e3", "pending", "t", "m", 2⟩], 1000⟩, [], 0⟩
      = some [⟨"e1", "pending", "t", "m", 5⟩] :=
  c7_retrieve_filter_amended [] (some 3) (.single .pending) _ (by decide)

/-! ## Lemmas about Python str.replace and the tenant catalog -/

theorem replaceAll_nil (pat rep : List Char) : replaceAll pat rep [] = [] := by
  rw [replaceAll]
  rw [dif_neg]
  rintro ⟨h1, h2⟩
  cases pat with
  | nil => exact h1 rfl
  | cons c cs => simp [List.isPrefixOf] at h2

theorem replaceAll_cons_no_match (pat rep : List Char) (c : Char) (cs : List Char)
    (h : pat.isPrefixOf (c :: cs) = false) :
    replaceAll pat rep (c :: cs) = c :: replaceAll pat rep cs := by
  rw [replaceAll]
  rw [dif_neg]
  rintro ⟨h1, h2⟩
  rw [h] at h2
  exact Bool.false_ne_true h2

theorem replaceAll_tag_start (pat rep t : List Char) (hp : pat ≠ []) :
    replaceAll pat rep (pat ++ t) = rep ++ replaceAll pat rep t := by
  rw [replaceAll]
  rw [dif_pos ⟨hp, List.isPrefixOf_iff_prefix.mpr (List.prefix_append pat t)⟩]
  rw [List.drop_left]

theorem replaceAll_no_occurrence (pat rep s : List Char) (hp : pat ≠ [])
    (h : occursIn pat s = false) : replaceAll pat rep s = s := by
  induction s with
  | nil => exact replaceAll_nil pat rep
  | cons c cs ih =>
    rw [occursIn, Bool.or_eq_false_iff] at h
    rw [replaceAll_cons_no_match pat rep c cs h.1, ih h.2]

/-- C8, counterexample: `name.replace('org-', '')` removes *every* occurrence
of `org-`, not just the leading one: the catalog name `org-borg-1` yields the
tenant identifier `b1`, while stripping only the leading `org-` would yield
`borg-1`. -/
theorem c8_counterexample :
    MongoManager.list_databases ["org-borg-1".toList] = ["b1".toList] ∧
    listOrganizationsClaim ["org-borg-1".toList] = ["borg-1".toList] ∧
    ("b1".toList : List Char) ≠ "borg-1".toList := by
  refine ⟨?_, by decide, by decide⟩
  have h0 : ("org-borg-1".toList : List Char) = dbNameTag ++ "borg-1".toList := by decide
  have h1 : replaceAll dbNameTag [] ("org-borg-1".toList)
      = replaceAll dbNameTag [] ("borg-1".toList) := by
    rw [h0, replaceAll_tag_start dbNameTag [] _ (by decide), List.nil_append]
  have h2 : ("borg-1".toList : List Char) = 'b' :: "org-1".toList := by decide
  have h3 : replaceAll dbNameTag [] ("borg-1".toList)
      = 'b' :: replaceAll dbNameTag [] ("org-1".toList) := by
    rw [h2, replaceAll_cons_no_match dbNameTag [] 'b' _ (by decide)]
  have h4 : ("org-1".toList : List Char) = dbNameTag ++ "1".toList := by decide
  have h5 : replaceAll dbNameTag [] ("org-1".toList)
      = replaceAll dbNameTag [] ("1".toList) := by
    rw [h4, replaceAll_tag_start dbNameTag [] _ (by decide), List.nil_append]
  have h6 : replaceAll dbNameTag [] ("1".toList) = '1' :: replaceAll dbNameTag [] [] := by
    have he : ("1".toList : List Char) = '1' :: [] := by decide
    rw [he, replaceAll_cons_no_match dbNameTag [] '1' [] (by decide)]
  have hfil : MongoManager.list_databases ["org-borg-1".toList]
      = [replaceAll dbNameTag [] ("org-borg-1".toList)] := rfl
  rw [hfil, h1, h3, h5, h6, replaceAll_nil]
  decide

/-- C8, amended: `list_databases` returns exactly the tenant identifiers of
the catalog entries whose name starts with the fixed `org-` tag, each
returned as the catalog name with every occurrence of the substring `org-`
removed; when `org-` occurs nowhere in a name except as its leading tag (the
hypothesis below), this coincides with the claim's leading-tag stripping.
Catalog names not matching the convention are excluded. -/
theorem c8_list_databases_amended (names : List (List Char))
    (hclean : ∀ n ∈ names, dbNameTag.isPrefixOf n = true →
      occursIn dbNameTag (n.drop dbNameTag.length) = false) :
    MongoManager.list_databases names = listOrganizationsClaim names := by
  induction names with
  | nil => rfl
  | cons n ns ih =>
    have ihh := ih (fun x hx hpre => hclean x (List.mem_cons_of_mem _ hx) hpre)
    simp only [MongoManager.list_databases, listOrganizationsClaim] at ihh ⊢
    by_cases hpre : dbNameTag.isPrefixOf n = true
    · have hhead : replaceAll dbNameTag [] n = n.drop dbNameTag.length := by
        have hocc := hclean n (by simp) hpre
        have hd : n = dbNameTag ++ n.drop dbNameTag.length := by
          obtain ⟨t, ht⟩ := List.isPrefixOf_iff_prefix.mp hpre
          rw [← ht, List.drop_left]
        calc replaceAll dbNameTag [] n
            = replaceAll dbNameTag [] (dbNameTag ++ n.drop dbNameTag.length) := by
              rw [← hd]
          _ = [] ++ replaceAll dbNameTag [] (n.drop dbNameTag.length) :=
              replaceAll_tag_start _ _ _ (by decide)
          _ = n.drop dbNameTag.length := by
              rw [List.nil_append, replaceAll_no_occurrence _ _ _ (by decide) hocc]
      simp only [List.filter_cons, hpre, if_true, List.map_cons]
      rw [hhead, ihh]
    · have hf : dbNameTag.isPrefixOf n = false := by
        revert hpre
        cases dbNameTag.isPrefixOf n <;> simp
      simp only [List.filter_cons, hf, Bool.false_eq_true, if_false]
      exact ihh

/-- C8, witness: a catalog with one conforming and one non-conforming name,
where `org-` occurs only as the leading tag. -/
theorem c8_witness :
    MongoManager.list_databases ["org-acme".toList, "plain".toList]
      = listOrganizationsClaim ["org-acme".toList, "plain".toList] :=
  c8_list_databases_amended ["org-acme".toList, "plain".toList] (by decide)

/-! ## Lemmas about the dict model and the workflow registry -/

theorem dlookup_mem {κ α : Type} [DecidableEq κ] (k : κ) (l : List (κ × α)) (v : α)
    (h : dlookup k l = some v) : (k, v) ∈ l := by
  induction l with
  | nil => cases h
  | cons p rest ih =>
    obtain ⟨k', v'⟩ := p
    by_cases hk : k' = k
    · simp only [dlookup, if_pos hk] at h
      injection h with h
      subst hk
      subst h
      exact List.mem_cons_self _ _
    · simp only [dlookup, if_neg hk] at h
      exact List.mem_cons_of_mem _ (ih h)

theorem ddel_length {κ α : Type} [DecidableEq κ] (k : κ) (l : List (κ × α))
    (h : (dlookup k l).isSome) : (ddel k l).length + 1 = l.length := by
  induction l with
  | nil => simp [dlookup] at h
  | cons p rest ih =>
    obtain ⟨k', v'⟩ := p
    by_cases hk : k' = k
    · simp only [ddel, if_pos hk, List.length_cons]
    · simp only [dlookup, if_neg hk] at h
      simp only [ddel, if_neg hk, List.length_cons]
      have := ih h
      omega

theorem countRecords_dset_ddel (running : List (Org × List (String × WorkflowInstance)))
    (k : Org) (u : String) (inner : List (String × WorkflowInstance))
    (hk : dlookup k running = some inner)
    (hu : (dlookup u inner).isSome) :
    countRecords (dset k (ddel u inner) running) + 1 = countRecords running := by
  induction running with
  | nil => cases hk
  | cons p rest ih =>
    obtain ⟨k', d⟩ := p
    by_cases hkk : k' = k
    · simp only [dlookup, if_pos hkk] at hk
      injection hk with hk
      subst hk
      simp only [dset, if_pos hkk, countRecords, List.map_cons, List.sum_cons]
      have hd := ddel_length u d hu
      omega
    · simp only [dlookup, if_neg hkk] at hk
      simp only [dset, if_neg hkk, countRecords, List.map_cons, List.sum_cons]
      have := ih hk
      simp only [countRecords] at this
      omega

/-- C3, counterexample: an engine event whose execution id matches no record
(here: the registry is empty) is not dropped with a warning — the lookup loop
falls through without assigning `wflow`, and the very next line
`wflow.exec.get('requester')` raises `UnboundLocalError`, which propagates
out of the handler. -/
theorem c3_counterexample :
    report_workflow true 0 ⟨[], []⟩ ⟨"x9", .progress, none⟩
      = .error "UnboundLocalError" := rfl

/-- C3, amended: for every engine lifecycle event whose execution id matches
no record in the registry (across all organizations), the handler creates and
removes no record and attempts no durable write, but it does not drop the
event with a warning: it raises `UnboundLocalError` (reading the never
assigned `wflow` local), and that error propagates out of the handler. -/
theorem c3_unknown_execution_amended (mongoOk : Bool) (now : Nat) (st : SysState)
    (ev : EngineEvent) (h : find_wflow st.running ev.exec_id = none) :
    report_workflow mongoOk now st ev = .error "UnboundLocalError" := by
  simp only [report_workflow, h]

/-- C3, witness: a registry holding an unrelated record, receiving a terminal
event for an unknown execution id. -/
theorem c3_witness :
    report_workflow false 5 ⟨[(some "acme", [("w1", sampleInstance)])], []⟩
        ⟨"zz", .endEv, none⟩ = .error "UnboundLocalError" :=
  c3_unknown_execution_amended false 5 _ _ (by decide)

theorem report_workflow_sent (mongoOk : Bool) (now : Nat) (st : SysState)
    (ev : EngineEvent) (wflow : WorkflowInstance) (out : HandlerOut)
    (hfind : find_wflow st.running ev.exec_id = some wflow)
    (hrun : report_workflow mongoOk now st ev = .ok out) :
    ∃ p : Payload,
      out.sent = [((dlookup wflow.organization st.ws_clients).getD [], p)] := by
  unfold report_workflow at hrun
  rw [hfind] at hrun
  simp only [] at hrun
  split at hrun
  · simp at hrun
  · injection hrun with h
    subst h
    exact ⟨_, rfl⟩

/-- C4: for a registered execution (found by the handler's lookup, present
under its own organization's dict), a `progress` event leaves the registry
unchanged (same record count, same records), produces no durable write and
exactly one broadcast; a terminal (`end`/`error`) event removes exactly that
one record (record count decreases by one), produces exactly one durable
write attempt of the sanitized merged report, and exactly one broadcast to
the record's organization's subscribers. -/
theorem c4_registry_lifecycle (mongoOk : Bool) (now : Nat) (st : SysState)
    (ev : EngineEvent) (wflow : WorkflowInstance)
    (inner : List (String × WorkflowInstance)) (rep : ReportDict)
    (hfind : find_wflow st.running ev.exec_id = some wflow)
    (hmongo : mongoOk = true)
    (hrep : wflow.report = some rep)
    (hinner : dlookup wflow.organization st.running = some inner)
    (hin : (dlookup ev.exec_id inner).isSome) :
    (ev.dtype = .progress →
      report_workflow mongoOk now st ev = .ok ⟨st, [],
        [((dlookup wflow.organization st.ws_clients).getD [],
          ⟨ev.dtype, ev.content.getD "", dlookup "requester" wflow.exec, now, none⟩)]⟩) ∧
    (ev.dtype.isTerminal = true →
      report_workflow mongoOk now st ev = .ok
        ⟨⟨dset wflow.organization (ddel ev.exec_id inner) st.running, st.ws_clients⟩,
         [(wflow.organization, sanitize_workflow_exec rep)],
         [((dlookup wflow.organization st.ws_clients).getD [],
           ⟨ev.dtype, ev.content.getD "", dlookup "requester" wflow.exec, now, none⟩)]⟩ ∧
      countRecords (dset wflow.organization (ddel ev.exec_id inner) st.running) + 1
        = countRecords st.running) := by
  subst hmongo
  constructor
  · intro hp
    simp only [report_workflow, hfind, hp, WExecState.isTerminal]
    simp
  · intro ht
    refine ⟨?_, countRecords_dset_ddel st.running wflow.organization ev.exec_id inner
      hinner hin⟩
    cases hdt : ev.dtype with
    | begin => rw [hdt] at ht; simp [WExecState.isTerminal] at ht
    | progress => rw [hdt] at ht; simp [WExecState.isTerminal] at ht
    | endEv =>
      simp only [report_workflow, hfind, hdt, WExecState.isTerminal, hrep, hinner, hin]
      simp
    | error =>
      simp only [report_workflow, hfind, hdt, WExecState.isTerminal, hrep, hinner, hin]
      simp

/-- C4, witness: an `end` event for `sampleInstance`, registered for `acme`
in `sampleState`: the record is evicted, one write of the merged report is
submitted for `acme`, one broadcast goes to `acme`'s client list `[c1]`, and
the record count drops from 1 to 0. -/
theorem c4_witness :
    report_workflow true 9 sampleState ⟨"x1", .endEv, none⟩ = .ok
        ⟨⟨dset (some "acme") (ddel "x1" [("x1", sampleInstance)]) sampleState.running,
          sampleState.ws_clients⟩,
         [(some "acme", sanitize_workflow_exec sampleReport)],
         [((dlookup (some "acme") sampleState.ws_clients).getD [],
           ⟨.endEv, "", some "bob", 9, none⟩)]⟩ ∧
      countRecords (dset (some "acme") (ddel "x1" [("x1", sampleInstance)])
          sampleState.running) + 1
        = countRecords sampleState.running :=
  (c4_registry_lifecycle true 9 sampleState ⟨"x1", .endEv, none⟩ sampleInstance
      [("x1", sampleInstance)] sampleReport (by decide) rfl (by decide) (by decide)
      (by decide)).2 (by decide)

/-- C6: every broadcast produced by handling an event for a record of
organization B is sent to exactly the subscriber list registered for B, so a
subscriber not registered for B never receives it; and a newly connected
subscriber's catch-up snapshot is computed from exactly its own
organization's live records, all of which belong to that organization when
the registry is well formed (each record stored under its own organization
key). -/
theorem c6_tenant_isolation (mongoOk : Bool) (now : Nat) (st : SysState)
    (ev : EngineEvent) (wflow : WorkflowInstance) (out : HandlerOut)
    (client : String) (org : Org)
    (hfind : find_wflow st.running ev.exec_id = some wflow)
    (hrun : report_workflow mongoOk now st ev = .ok out)
    (hwf : ∀ p ∈ st.running, ∀ q ∈ p.2, q.2.organization = p.1) :
    (∀ p ∈ out.sent, p.1 = (dlookup wflow.organization st.ws_clients).getD []) ∧
    (∀ sub : String, sub ∉ (dlookup wflow.organization st.ws_clients).getD [] →
      ∀ p ∈ out.sent, sub ∉ p.1) ∧
    (∀ st' reps, websocket_ready st client org = some (st', reps) →
      reportAll ((dlookup org st.running).getD []) = some reps ∧
      ∀ q ∈ (dlookup org st.running).getD [], q.2.organization = org) := by
  obtain ⟨p0, hsent⟩ := report_workflow_sent mongoOk now st ev wflow out hfind hrun
  refine ⟨?_, ?_, ?_⟩
  · intro p hp
    rw [hsent] at hp
    rw [List.mem_singleton] at hp
    rw [hp]
  · intro sub hsub p hp
    rw [hsent] at hp
    rw [List.mem_singleton] at hp
    rw [hp]
    exact hsub
  · intro st' reps hready
    unfold websocket_ready at hready
    obtain ⟨a, ha, hfa⟩ := Option.map_eq_some'.mp hready
    constructor
    · rw [ha]
      have : a = reps := congrArg Prod.snd hfa
      rw [this]
    · intro q hq
      cases hdl : dlookup org st.running with
      | none =>
        rw [hdl] at hq
        simp at hq
      | some d =>
        rw [hdl] at hq
        simp only [Option.getD_some] at hq
        exact hwf (org, d) (dlookup_mem org st.running d hdl) q hq

/-- C6, witness: in `sampleState`, a `progress` event for `acme`'s execution
broadcasts to exactly `acme`'s client list `[c1]` (client `c2` of `beta` is
excluded), and a new subscriber connecting for `beta` gets a snapshot built
from `beta`'s (empty) record set only. -/
theorem c6_witness :
    (∀ p ∈ (HandlerOut.mk sampleState []
        [(["c1"], ⟨.progress, "", some "bob", 2, none⟩)]).sent,
      p.1 = (dlookup (some "acme") sampleState.ws_clients).getD []) ∧
    (∀ sub : String, sub ∉ (dlookup (some "acme") sampleState.ws_clients).getD [] →
      ∀ p ∈ (HandlerOut.mk sampleState []
          [(["c1"], ⟨.progress, "", some "bob", 2, none⟩)]).sent,
        sub ∉ p.1) ∧
    (∀ st' reps, websocket_ready sampleState "c9" (some "beta") = some (st', reps) →
      reportAll ((dlookup (some "beta") sampleState.running).getD []) = some reps ∧
      ∀ q ∈ (dlookup (some "beta") sampleState.running).getD [],
        q.2.organization = some "beta") :=
  c6_tenant_isolation false 2 sampleState ⟨"x1", .progress, none⟩ sampleInstance
    (HandlerOut.mk sampleState [] [(["c1"], ⟨.progress, "", some "bob", 2, none⟩)])
    "c9" (some "beta") (by decide) rfl (by decide)

/-! ## Lemmas for the report merge -/

theorem dlookup_isSome_iff {κ α : Type} [DecidableEq κ] (k : κ) (l : List (κ × α)) :
    (dlookup k l).isSome ↔ k ∈ l.map Prod.fst := by
  induction l with
  | nil => simp [dlookup]
  | cons p rest ih =>
    obtain ⟨k', v'⟩ := p
    by_cases hk : k' = k
    · simp [dlookup, hk]
    · rw [dlookup, if_neg hk, ih]
      simp only [List.map_cons, List.mem_cons]
      constructor
      · exact Or.inr
      · rintro (h | h)
        · exact absurd h.symm hk
        · exact h

theorem dset_append_of_not_mem {κ α : Type} [DecidableEq κ] (k : κ) (v : α)
    (l : List (κ × α)) (h : k ∉ l.map Prod.fst) :
    dset k v l = l ++ [(k, v)] := by
  induction l with
  | nil => rfl
  | cons p rest ih =>
    obtain ⟨k', v'⟩ := p
    simp only [List.map_cons, List.mem_cons] at h
    push_neg at h
    rw [dset, if_neg (fun he => h.1 he.symm), ih h.2, List.cons_append]

theorem dset_keys_of_mem {κ α : Type} [DecidableEq κ] (k : κ) (v : α)
    (l : List (κ × α)) (h : k ∈ l.map Prod.fst) :
    (dset k v l).map Prod.fst = l.map Prod.fst := by
  induction l with
  | nil => simp at h
  | cons p rest ih =>
    obtain ⟨k', v'⟩ := p
    by_cases hk : k' = k
    · simp [dset, hk]
    · simp only [List.map_cons, List.mem_cons] at h
      rcases h with h | h
      · exact absurd h.symm hk
      · simp [dset, hk, ih h]

theorem dlookup_dset_self {κ α : Type} [DecidableEq κ] (k : κ) (v : α)
    (l : List (κ × α)) : dlookup k (dset k v l) = some v := by
  induction l with
  | nil => simp [dset, dlookup]
  | cons p rest ih =>
    obtain ⟨k', v'⟩ := p
    by_cases hk : k' = k
    · simp [dset, dlookup, hk]
    · simp [dset, dlookup, hk, ih]

theorem dlookup_dset_ne {κ α : Type} [DecidableEq κ] (k k' : κ) (v : α)
    (l : List (κ × α)) (h : k' ≠ k) : dlookup k' (dset k v l) = dlookup k' l := by
  have hne : ¬ (k = k') := fun he => h he.symm
  induction l with
  | nil => simp [dset, dlookup, hne]
  | cons p rest ih =>
    obtain ⟨k1, v1⟩ := p
    by_cases hk : k1 = k
    · subst hk
      simp [dset, dlookup, hne]
    · simp [dset, dlookup, hk, ih]

theorem buildTaskMap_spec (ts : List PDict) (d : List (String × PDict))
    (h1 : ∀ t ∈ ts, (dlookup "id" t).isSome)
    (hnd : (ts.map (fun t => (dlookup "id" t).getD "")).Nodup)
    (hdisj : ∀ t ∈ ts, ((dlookup "id" t).getD "") ∉ d.map Prod.fst) :
    buildTaskMap ts d
      = some (d ++ ts.map (fun t => ((dlookup "id" t).getD "", t))) := by
  induction ts generalizing d with
  | nil => simp [buildTaskMap]
  | cons t ts ih =>
    obtain ⟨k, hk⟩ := Option.isSome_iff_exists.mp (h1 t (by simp))
    have hgid : (dlookup "id" t).getD "" = k := by rw [hk]; rfl
    simp only [buildTaskMap, hk, Option.bind_eq_bind, Option.some_bind]
    have hkd : k ∉ d.map Prod.fst := by
      have := hdisj t (by simp)
      rwa [hgid] at this
    rw [dset_append_of_not_mem k t d hkd]
    simp only [List.map_cons, List.nodup_cons] at hnd
    have hdisj' : ∀ t' ∈ ts, ((dlookup "id" t').getD "") ∉ (d ++ [(k, t)]).map Prod.fst := by
      intro t' ht'
      simp only [List.map_append, List.mem_append, List.map_cons, List.map_nil,
        List.mem_singleton]
      rintro (hc | hc)
      · exact hdisj t' (List.mem_cons_of_mem _ ht') hc
      · rw [hgid] at hnd
        exact hnd.1 (hc ▸ List.mem_map_of_mem _ ht')
    rw [ih (d ++ [(k, t)]) (fun x hx => h1 x (List.mem_cons_of_mem _ hx)) hnd.2 hdisj']
    rw [List.append_assoc, List.map_cons, hgid, List.singleton_append]

theorem map_dset_find (d : List (String × PDict)) (k : String) (v : PDict)
    (dt : PDict) (dts : List PDict)
    (hkv : dlookup k d = some v)
    (hnd : (d.map Prod.fst).Nodup)
    (hdt : dlookup "id" dt = some k)
    (hdts : ∀ dt' ∈ dts, dlookup "id" dt' ≠ some k) :
    (dset k (dmerge v dt) d).map (applyDyn dts) = d.map (applyDyn (dt :: dts)) := by
  induction d with
  | nil => cases hkv
  | cons p rest ih =>
    obtain ⟨k1, v1⟩ := p
    rw [List.map_cons, List.nodup_cons] at hnd
    by_cases hk1 : k1 = k
    · subst hk1
      simp only [dlookup, if_pos rfl] at hkv
      injection hkv with hkv
      subst hkv
      have hds : dset k1 (dmerge v1 dt) ((k1, v1) :: rest) = (k1, dmerge v1 dt) :: rest := by
        simp [dset]
      rw [hds, List.map_cons, List.map_cons]
      have hfind_dts : dts.find? (fun x => decide (dlookup "id" x = some k1)) = none := by
        rw [List.find?_eq_none]
        intro x hx
        simp [hdts x hx]
      have hfind_cons : (dt :: dts).find? (fun x => decide (dlookup "id" x = some k1))
          = some dt :=
        List.find?_cons_of_pos _ (by simp [hdt])
      have hhead : applyDyn dts (k1, dmerge v1 dt) = applyDyn (dt :: dts) (k1, v1) := by
        simp only [applyDyn, hfind_dts, hfind_cons]
      have htail : rest.map (applyDyn dts) = rest.map (applyDyn (dt :: dts)) := by
        apply List.map_congr_left
        intro q hq
        obtain ⟨k2, v2⟩ := q
        have hk2 : ¬ (dlookup "id" dt = some k2) := by
          rw [hdt]
          intro he
          injection he with he
          subst he
          have hmemk : k1 ∈ List.map Prod.fst rest := List.mem_map_of_mem Prod.fst hq
          exact hnd.1 hmemk
        simp only [applyDyn]
        rw [List.find?_cons_of_neg _ (by simp [hk2])]
      rw [hhead, htail]
    · simp only [dlookup, if_neg hk1] at hkv
      simp only [dset, if_neg hk1, List.map_cons]
      have hhead : applyDyn dts (k1, v1) = applyDyn (dt :: dts) (k1, v1) := by
        have hne : ¬ (dlookup "id" dt = some k1) := by
          rw [hdt]
          intro he
          injection he with he
          exact hk1 he.symm
        simp only [applyDyn]
        rw [List.find?_cons_of_neg _ (by simp [hne])]
      rw [hhead, ih hkv hnd.2]

theorem mergeInstTasks_spec (dts : List PDict) (d : List (String × PDict))
    (hnd : (d.map Prod.fst).Nodup)
    (hin : ∀ dt ∈ dts, ∃ k, dlookup "id" dt = some k ∧ (dlookup k d).isSome)
    (hdn : (dts.map (fun t => dlookup "id" t)).Nodup) :
    mergeInstTasks d dts = some (d.map (applyDyn dts)) := by
  induction dts generalizing d with
  | nil =>
    simp only [mergeInstTasks]
    have h : ∀ p ∈ d, applyDyn [] p = id p := fun p _ => by
      simp [applyDyn, List.find?]
    rw [List.map_congr_left h, List.map_id]
  | cons dt dts ih =>
    obtain ⟨k, hk, hv⟩ := hin dt (by simp)
    obtain ⟨v, hveq⟩ := Option.isSome_iff_exists.mp hv
    simp only [mergeInstTasks, hk, hveq, Option.bind_eq_bind, Option.some_bind]
    simp only [List.map_cons, List.nodup_cons] at hdn
    rw [hk] at hdn
    have hdts : ∀ dt' ∈ dts, dlookup "id" dt' ≠ some k := by
      intro dt' hdt' he
      have hmem : some k ∈ dts.map (fun t => dlookup "id" t) := by
        rw [← he]
        exact List.mem_map_of_mem _ hdt'
      exact hdn.1 hmem
    have hnd' : ((dset k (dmerge v dt) d).map Prod.fst).Nodup := by
      rw [dset_keys_of_mem k _ d ((dlookup_isSome_iff k d).mp hv)]
      exact hnd
    have hin' : ∀ dt' ∈ dts, ∃ k', dlookup "id" dt' = some k' ∧
        (dlookup k' (dset k (dmerge v dt) d)).isSome := by
      intro dt' hdt'
      obtain ⟨k', hk', hv'⟩ := hin dt' (List.mem_cons_of_mem _ hdt')
      refine ⟨k', hk', ?_⟩
      by_cases hkk : k' = k
      · subst hkk
        rw [dlookup_dset_self]
        rfl
      · rw [dlookup_dset_ne k k' _ d hkk]
        exact hv'
    rw [ih (dset k (dmerge v dt) d) hnd' hin' hdn.2]
    congr 1
    exact map_dset_find d k v dt dts hveq hnd hk hdts

/-- C5: `report()` merges the template's task list (keyed by task id) with
the dynamic per-task execution state so that every template task appears
exactly once in the output, in template order: a task with dynamic state
becomes `{**static, **dynamic}` — both its static and its dynamic fields —
while a task without dynamic state is returned exactly as its static dict,
with no dynamic fields injected; since the merge builds fresh dicts (and this
model is pure), the stored template is not mutated — the output entry of a
dynamic-free task is literally the template's own entry.  Hypotheses: every
task dict carries an `id` key, template task ids are pairwise distinct,
every dynamic task's id matches some template task's id, and dynamic task
ids are pairwise distinct. -/
theorem c5_report_merge (w : WorkflowInstance)
    (h1 : ∀ t ∈ w.template.tasks, (dlookup "id" t).isSome)
    (h2 : (w.template.tasks.map (fun t => dlookup "id" t)).Nodup)
    (h3 : ∀ dt ∈ w.instReport.tasks, ∃ t ∈ w.template.tasks,
      dlookup "id" dt = dlookup "id" t)
    (h4 : (w.instReport.tasks.map (fun t => dlookup "id" t)).Nodup) :
    w.report = some ⟨w.template.rest, dmerge w.instReport.exec w.exec,
      w.template.tasks.map (fun t =>
        match dynFor w.instReport.tasks t with
        | some dt => dmerge t dt
        | none => t)⟩ := by
  have hgetnd : (w.template.tasks.map (fun t => (dlookup "id" t).getD "")).Nodup := by
    have hcomp : w.template.tasks.map (fun t => (dlookup "id" t).getD "")
        = (w.template.tasks.map (fun t => dlookup "id" t)).map (fun o => o.getD "") := by
      rw [List.map_map]
      rfl
    rw [hcomp]
    refine List.Nodup.map_on ?_ h2
    intro x hx y hy hxy
    obtain ⟨tx, htx, hfx⟩ := List.mem_map.mp hx
    obtain ⟨ty, hty, hfy⟩ := List.mem_map.mp hy
    have hxs : x.isSome := by rw [← hfx]; exact h1 tx htx
    have hys : y.isSome := by rw [← hfy]; exact h1 ty hty
    obtain ⟨a, ha⟩ := Option.isSome_iff_exists.mp hxs
    obtain ⟨b, hb⟩ := Option.isSome_iff_exists.mp hys
    subst ha
    subst hb
    simp only [Option.getD_some] at hxy
    rw [hxy]
  set d0 := w.template.tasks.map (fun t => ((dlookup "id" t).getD "", t)) with hd0
  have hbuild := buildTaskMap_spec w.template.tasks [] h1 hgetnd (by intro t ht; simp)
  rw [List.nil_append, ← hd0] at hbuild
  have hkeys : d0.map Prod.fst = w.template.tasks.map (fun t => (dlookup "id" t).getD "") := by
    rw [hd0, List.map_map]
    rfl
  have hnd0 : (d0.map Prod.fst).Nodup := by
    rw [hkeys]
    exact hgetnd
  have hin0 : ∀ dt ∈ w.instReport.tasks, ∃ k, dlookup "id" dt = some k ∧
      (dlookup k d0).isSome := by
    intro dt hdt
    obtain ⟨t, ht, he⟩ := h3 dt hdt
    obtain ⟨a, ha⟩ := Option.isSome_iff_exists.mp (h1 t ht)
    refine ⟨a, by rw [he, ha], ?_⟩
    rw [dlookup_isSome_iff, hkeys]
    have hga : (dlookup "id" t).getD "" = a := by rw [ha]; rfl
    rw [← hga]
    exact List.mem_map_of_mem _ ht
  have hmerge := mergeInstTasks_spec w.instReport.tasks d0 hnd0 hin0 h4
  have htasks : (d0.map (applyDyn w.instReport.tasks)).map (fun p => p.2)
      = w.template.tasks.map (fun t =>
          match dynFor w.instReport.tasks t with
          | some dt => dmerge t dt
          | none => t) := by
    rw [hd0, List.map_map, List.map_map]
    apply List.map_congr_left
    intro t ht
    obtain ⟨a, ha⟩ := Option.isSome_iff_exists.mp (h1 t ht)
    simp only [Function.comp, applyDyn, dynFor, ha, Option.getD_some]
    cases hfind : w.instReport.tasks.find? (fun dt => decide (dlookup "id" dt = some a)) with
    | none => rfl
    | some dt => rfl
  simp only [WorkflowInstance.report, hbuild, hmerge, Option.bind_eq_bind,
    Option.some_bind, Option.pure_def]
  rw [htasks]

/-- C5, witness: `sampleInstance` has template tasks `t1`, `t2` and dynamic
state only for `t1`; the merged report carries `t1` with static and dynamic
fields and `t2` with static fields only. -/
theorem c5_witness :
    sampleInstance.report = some ⟨[("id", "wf1")],
      [("status", "done"), ("requester", "bob")],
      [[("id", "t1"), ("title", "A"), ("status", "done")],
       [("id", "t2"), ("title", "B")]]⟩ :=
  c5_report_merge sampleInstance (by decide) (by decide) (by decide) (by decide)
